import Mathlib

/-!
Verification of the email-parser repository's date-time grammar
(src/parsing/time.rs), its error substrate (src/error.rs) and the MIME
entity model (src/mime.rs), as a shallow embedding in Lean 4.

Byte slices are embedded as `List Nat` (each element an octet value); the
"remaining input" slice of the Rust parser becomes the list returned in the
first component of a successful result.  The combinator substrate
(`crate::prelude`: `fws`, `cfws`, `tag`, `optional`, `digit`, `two_digits`,
`take_while1`, ...) is not among the given sources, so those primitives are
modelled from the specification, each marked `Modelled from the spec:` in
its doc comment.  Everything in src/parsing/time.rs, src/error.rs and
src/mime.rs is translated directly from the source.
-/

namespace EmailParser

/-- src/error.rs: `enum Error { Known(&'static str), TagError(&'static str) }`. -/
inductive Error where
  | Known (msg : String)
  | TagError (msg : String)
deriving DecidableEq, Repr

/-- src/error.rs: `type Res<'a, T> = Result<(&'a [u8], T), Error>;`. -/
abbrev Res (α : Type) := Except Error (List Nat × α)

/-- Bytes of an ASCII string literal, used to write byte-slice constants. -/
def strBytes (s : String) : List Nat :=
  s.toList.map Char.toNat

/-- Modelled from the spec: ASCII-digit predicate used by the digit scanners. -/
def is_digit (b : Nat) : Bool :=
  48 ≤ b && b ≤ 57

/-- Modelled from the spec: single-digit scanner — consumes one ASCII digit
and returns its numeric value, failing on end of input or a non-digit. -/
def digit : List Nat → Res Nat
  | [] => .error (.Known "Expected digit but reached end of input")
  | b :: rest =>
      if is_digit b then .ok (rest, b - 48) else .error (.Known "Expected digit")

/-- The Rust `?` operator on a `Res`: propagate an error, otherwise continue
with the remaining input and the produced value. -/
def andThen {α β : Type} (x : Res α) (g : List Nat → α → Res β) : Res β :=
  match x with
  | .error e => .error e
  | .ok (i, v) => g i v

/-- Rust `Result::map_err` with a constant replacement error. -/
def mapErr {α : Type} (x : Res α) (e : Error) : Res α :=
  match x with
  | .error _ => .error e
  | .ok v => .ok v

/-- Modelled from the spec: two-fixed-digit scanner — two consecutive ASCII
digits, value `10*d1 + d2`. -/
def two_digits (input : List Nat) : Res Nat :=
  andThen (digit input) (fun i1 d1 =>
    andThen (digit i1) (fun i2 d2 => .ok (i2, d1 * 10 + d2)))

/-- Modelled from the spec: `take_while1` — longest nonempty prefix whose
bytes satisfy the predicate; fails if zero characters match. -/
def take_while1 (input : List Nat) (p : Nat → Bool) : Res (List Nat) :=
  match input.takeWhile p with
  | [] => .error (.Known "take_while1 matched no characters")
  | m => .ok (input.dropWhile p, m)

/-- Modelled from the spec: literal match ("tag") — succeeds iff the input
starts with the given byte literal, advancing past it; otherwise fails with
`TagError` so callers can treat the failure as "try another alternative". -/
def tag (input : List Nat) (t : List Nat) : Res Unit :=
  if t.isPrefixOf input then .ok (input.drop t.length, ())
  else .error (.TagError "Expected literal token")

/-- Modelled from the spec: `optional` — applies a sub-rule; on failure it
returns the original input unchanged with no value, never propagating the
sub-rule's error. -/
def optional {α : Type} (input : List Nat) (p : List Nat → Res α) :
    List Nat × Option α :=
  match p input with
  | .ok (rest, v) => (rest, some v)
  | .error _ => (input, none)

/-- RFC 5322 WSP: space or horizontal tab. -/
def wsp (b : Nat) : Bool :=
  b == 32 || b == 9

/-- Modelled from the spec: folding whitespace `FWS = ([*WSP CRLF] 1*WSP)` —
an optional run of WSP ending in CRLF (a line fold), then at least one
mandatory WSP; fails when no whitespace is present. -/
def fws (input : List Nat) : Res Unit :=
  match input.dropWhile wsp with
  | 13 :: 10 :: rest =>
      if wsp (rest.headD 0) then .ok (rest.dropWhile wsp, ())
      else .error (.Known "Expected whitespace")
  | _ =>
      if wsp (input.headD 0) then .ok (input.dropWhile wsp, ())
      else .error (.Known "Expected whitespace")

/-- Modelled from the spec: scanner for the body of a parenthesised comment.
Called just after an opening `(`; consumes bytes until the parenthesis
nesting closes, tracking the extra nesting depth `d`; returns the bytes
after the closing `)`, or `none` when the comment never closes.  The fuel
argument only bounds the recursion; callers pass the input length, which
suffices since every step consumes one byte. -/
def scanComment : Nat → Nat → List Nat → Option (List Nat)
  | _, _, [] => none
  | 0, _, _ :: _ => none
  | fuel + 1, d, b :: rest =>
      if b = 41 then
        if d = 0 then some rest else scanComment fuel (d - 1) rest
      else if b = 40 then scanComment fuel (d + 1) rest
      else scanComment fuel d rest

/-- Modelled from the spec: greedy consumption of CFWS units — runs of WSP,
line folds (CRLF followed by WSP) and balanced parenthesised comments —
returning the first byte position belonging to none of them. -/
def cfwsUnits : Nat → List Nat → List Nat
  | 0, l => l
  | fuel + 1, l =>
      match l with
      | [] => []
      | b :: rest =>
          if b = 32 ∨ b = 9 then cfwsUnits fuel rest
          else if b = 13 then
            if rest.head? = some 10 ∧ rest.tail ≠ [] ∧ wsp (rest.tail.headD 0) then
              cfwsUnits fuel rest.tail
            else l
          else if b = 40 then
            match scanComment rest.length 0 rest with
            | some rest2 => cfwsUnits fuel rest2
            | none => l
          else l

/-- Modelled from the spec: `cfws` — folding whitespace interspersed with
(arbitrarily nested) parenthesised comments; at least one whitespace or
comment unit must be consumed, otherwise an error is returned.  The engine
places no bound on comment nesting depth. -/
def cfws (input : List Nat) : Res Unit :=
  let rest := cfwsUnits input.length input
  if rest.length < input.length then .ok (rest, ())
  else .error (.Known "Expected comment or folding whitespace")

/-- src/parsing/time.rs: `enum Day`. -/
inductive Day where
  | Monday | Tuesday | Wednesday | Thursday | Friday | Saturday | Sunday
deriving DecidableEq, Repr

/-- src/parsing/time.rs: `enum Month`. -/
inductive Month where
  | January | February | March | April | May | June
  | July | August | September | October | November | December
deriving DecidableEq, Repr

/-- src/parsing/time.rs: `type Zone = (bool, u8, u8);`. -/
abbrev Zone := Bool × Nat × Nat

/-- src/parsing/time.rs: `type Time = ((u8, u8, u8), Zone);`. -/
abbrev Time := (Nat × Nat × Nat) × Zone

/-- src/parsing/time.rs: `type Date = (usize, Month, usize);`. -/
abbrev Date := Nat × Month × Nat

/-- src/parsing/time.rs: `type DateTime = (Option<Day>, Date, Time);`. -/
abbrev DateTime := Option Day × Date × Time

/-- Rust `<[u8]>::to_ascii_lowercase`, byte-wise. -/
def to_ascii_lowercase (l : List Nat) : List Nat :=
  l.map (fun b => if 65 ≤ b ∧ b ≤ 90 then b + 32 else b)

/-- The seven-row match table of `day_name` (src/parsing/time.rs lines 38–47),
on the lower-cased three letters. -/
def day_abbrev (letters : List Nat) : Option Day :=
  if letters = strBytes "mon" then some .Monday
  else if letters = strBytes "tue" then some .Tuesday
  else if letters = strBytes "wed" then some .Wednesday
  else if letters = strBytes "thu" then some .Thursday
  else if letters = strBytes "fri" then some .Friday
  else if letters = strBytes "sat" then some .Saturday
  else if letters = strBytes "sun" then some .Sunday
  else none

/-- src/parsing/time.rs lines 35–53: `day_name` — three bytes, matched
case-insensitively against the seven weekday abbreviations. -/
def day_name (input : List Nat) : Res Day :=
  if 3 ≤ input.length then
    match day_abbrev (to_ascii_lowercase (input.take 3)) with
    | some d => .ok (input.drop 3, d)
    | none => .error (.Known "Not a valid day_name")
  else
    .error (.Known "Expected day_name, but characters are missing (at least 3).")

/-- The twelve-row match table of `month` (src/parsing/time.rs lines 58–71),
on the lower-cased three letters. -/
def month_abbrev (letters : List Nat) : Option Month :=
  if letters = strBytes "jan" then some .January
  else if letters = strBytes "feb" then some .February
  else if letters = strBytes "mar" then some .March
  else if letters = strBytes "apr" then some .April
  else if letters = strBytes "may" then some .May
  else if letters = strBytes "jun" then some .June
  else if letters = strBytes "jul" then some .July
  else if letters = strBytes "aug" then some .August
  else if letters = strBytes "sep" then some .September
  else if letters = strBytes "oct" then some .October
  else if letters = strBytes "nov" then some .November
  else if letters = strBytes "dec" then some .December
  else none

/-- src/parsing/time.rs lines 55–78: `month` — three bytes, matched
case-insensitively against the twelve month abbreviations. -/
def month (input : List Nat) : Res Month :=
  if 3 ≤ input.length then
    match month_abbrev (to_ascii_lowercase (input.take 3)) with
    | some m => .ok (input.drop 3, m)
    | none => .error (.Known "Not a valid month")
  else
    .error (.Known "Expected month, but characters are missing (at least 3).")

/-- src/parsing/time.rs lines 80–85: `day_of_week` — optional leading FWS,
a `day_name`, then a mandatory literal comma. -/
def day_of_week (input : List Nat) : Res Day :=
  let i1 := (optional input fws).1
  andThen (day_name i1) (fun i2 day =>
    andThen (tag i2 (strBytes ",")) (fun i3 _ => .ok (i3, day)))

/-- Modelled from Rust std: `usize::from_str` on an ASCII-digit run — the
denoted value, failing on the empty run and on overflow past
`usize::MAX = 2^64 - 1` (64-bit platform). -/
def parse_usize (s : List Nat) : Option Nat :=
  match s with
  | [] => none
  | _ =>
      let v := s.foldl (fun a b => a * 10 + (b - 48)) 0
      if v < 2 ^ 64 then some v else none

/-- src/parsing/time.rs lines 87–106: `year` — mandatory FWS, one-or-more
digits (at least 4), parsed as `usize`, must be ≥ 1990, mandatory
trailing FWS. -/
def year (input : List Nat) : Res Nat :=
  andThen (fws input) (fun i1 _ =>
    andThen (mapErr (take_while1 i1 is_digit) (.Known "no digit in year"))
      (fun i2 run =>
        if run.length < 4 then
          .error (.Known "year is expected to have 4 digits or more")
        else
          match parse_usize run with
          | none => .error (.Known "Failed to parse year")
          | some y =>
              if y < 1990 then .error (.Known "year must be after 1990")
              else andThen (fws i2) (fun i3 _ => .ok (i3, y))))

/-- src/parsing/time.rs lines 108–121: `day` — optional leading FWS, one
digit, greedily a second digit if present, must not exceed 31, mandatory
trailing FWS. -/
def day (input : List Nat) : Res Nat :=
  let i1 := (optional input fws).1
  andThen (digit i1) (fun i2 d1 =>
    let step : List Nat × Nat :=
      match digit i2 with
      | .ok (i3, d2) => (i3, d1 * 10 + d2)
      | .error _ => (i2, d1)
    if step.2 > 31 then .error (.Known "day must be less than 31")
    else andThen (fws step.1) (fun i4 _ => .ok (i4, step.2)))

/-- src/parsing/time.rs lines 123–147: `time_of_day` — two digits for the
hour (≤ 23), a colon, two digits for the minutes (≤ 59), then optionally a
colon and two digits for the seconds (≤ 60; a malformed seconds group after
the colon falls through to seconds = 0 with the colon left unconsumed). -/
def time_of_day (input : List Nat) : Res (Nat × Nat × Nat) :=
  andThen (two_digits input) (fun i1 hour =>
    if hour > 23 then .error (.Known "There is only 24 hours in a day")
    else
      andThen (tag i1 (strBytes ":")) (fun i2 _ =>
        andThen (two_digits i2) (fun i3 minutes =>
          if minutes > 59 then
            .error (.Known "There is only 60 minutes per hour")
          else
            if i3.head? = some 58 then
              match two_digits i3.tail with
              | .ok (i4, seconds) =>
                  if seconds > 60 then
                    .error (.Known "There is only 60 seconds in a minute")
                  else .ok (i4, (hour, minutes, seconds))
              | .error _ => .ok (i3, (hour, minutes, 0))
            else .ok (i3, (hour, minutes, 0)))))

/-- src/parsing/time.rs lines 149–168: `zone` — mandatory FWS, a mandatory
sign byte (`+` or `-`; anything else, or end of input, is an error), two
digits of zone-hours (no upper check), two digits of zone-minutes (≤ 59). -/
def zone (input : List Nat) : Res Zone :=
  andThen (fws input) (fun i1 _ =>
    match i1 with
    | [] => .error (.Known "Expected more characters in zone")
    | c :: i2 =>
        if c = 43 ∨ c = 45 then
          andThen (two_digits i2) (fun i3 hours =>
            andThen (two_digits i3) (fun i4 minutes =>
              if minutes > 59 then
                .error (.Known "zone minutes out of range")
              else .ok (i4, (decide (c = 43), hours, minutes))))
        else .error (.Known "Invalid sign character in zone"))

/-- src/parsing/time.rs lines 170–174: `time` = `time_of_day` then `zone`. -/
def time (input : List Nat) : Res Time :=
  andThen (time_of_day input) (fun i1 tod =>
    andThen (zone i1) (fun i2 z => .ok (i2, (tod, z))))

/-- src/parsing/time.rs lines 176–181: `date` = `day` then `month` then
`year`. -/
def date (input : List Nat) : Res Date :=
  andThen (day input) (fun i1 d =>
    andThen (month i1) (fun i2 m =>
      andThen (year i2) (fun i3 y => .ok (i3, (d, m, y)))))

/-- src/parsing/time.rs lines 183–189: `date_time` = optional `day_of_week`,
`date`, `time`, optional trailing `cfws`. -/
def date_time (input : List Nat) : Res DateTime :=
  let s := optional input day_of_week
  andThen (date s.1) (fun i2 dt =>
    andThen (time i2) (fun i3 t =>
      .ok ((optional i3 cfws).1, (s.2, dt, t))))

/-- src/mime.rs lines 52–63: `enum MimeType`. -/
inductive MimeType where
  | Text | Image | Audio | Video | Application | Message | Multipart
  | Other (name : String)
deriving DecidableEq, Repr

/-- src/mime.rs lines 5–21: `struct RawEntity` — structural metadata plus the
raw (already transfer-decoded) body bytes.  The `HashMap` of parameters is
embedded as an association list; the cfg-gated `disposition` field (feature
`content-disposition`) is omitted. -/
structure RawEntity where
  mime_type : MimeType
  subtype : String
  description : Option String
  id : Option (String × String)
  parameters : List (String × String)
  value : List Nat
  additional_headers : List (String × String)
deriving DecidableEq, Repr

/-- src/mime.rs lines 34–50: `enum Entity` — a resolved entity: multipart
children, decoded text (embedded as the list of decoded code points), or the
untouched original as fallback. -/
inductive Entity where
  | Multipart (subtype : String) (content : List RawEntity)
  | Text (subtype : String) (value : List Nat)
  | Unknown (e : RawEntity)
deriving DecidableEq, Repr

/-- src/mime.rs lines 143–156: `MimeType::is_composite_type` — a type is
composite iff it is `Message` or `Multipart`. -/
def MimeType.is_composite_type : MimeType → Bool
  | .Message => true
  | .Multipart => true
  | .Text => false
  | .Image => false
  | .Audio => false
  | .Video => false
  | .Application => false
  | .Other _ => false

/-- Modelled from the spec: parameter lookup — parameter keys are stored
lower-cased, so the lookup is a direct association-list find. -/
def lookup_param (ps : List (String × String)) (k : String) : Option String :=
  (ps.find? (fun p => p.1 == k)).map (fun p => p.2)

/-- Modelled from the spec: strict UTF-8 validation/decoding, the shape of
Rust std validation — invalid sequences (bad leading byte, bad continuation
range, overlong form, surrogate, out-of-range scalar) are an error, not
lossily substituted.  Fuel-driven; callers pass the input length. -/
def utf8_go : Nat → List Nat → Option (List Nat)
  | _, [] => some []
  | 0, _ :: _ => none
  | fuel + 1, b :: rest =>
      if b < 128 then (utf8_go fuel rest).map (fun t => b :: t)
      else if 194 ≤ b ∧ b ≤ 223 then
        match rest with
        | c1 :: r2 =>
            if 128 ≤ c1 ∧ c1 ≤ 191 then
              (utf8_go fuel r2).map (fun t => ((b - 192) * 64 + (c1 - 128)) :: t)
            else none
        | [] => none
      else if 224 ≤ b ∧ b ≤ 239 then
        match rest with
        | c1 :: c2 :: r2 =>
            if (if b = 224 then 160 ≤ c1 ∧ c1 ≤ 191
                else if b = 237 then 128 ≤ c1 ∧ c1 ≤ 159
                else 128 ≤ c1 ∧ c1 ≤ 191) ∧ 128 ≤ c2 ∧ c2 ≤ 191 then
              (utf8_go fuel r2).map
                (fun t => ((b - 224) * 4096 + (c1 - 128) * 64 + (c2 - 128)) :: t)
            else none
        | _ => none
      else if 240 ≤ b ∧ b ≤ 244 then
        match rest with
        | c1 :: c2 :: c3 :: r2 =>
            if (if b = 240 then 144 ≤ c1 ∧ c1 ≤ 191
                else if b = 244 then 128 ≤ c1 ∧ c1 ≤ 143
                else 128 ≤ c1 ∧ c1 ≤ 191) ∧
               (128 ≤ c2 ∧ c2 ≤ 191) ∧ (128 ≤ c3 ∧ c3 ≤ 191) then
              (utf8_go fuel r2).map
                (fun t =>
                  ((b - 240) * 262144 + (c1 - 128) * 4096 +
                    (c2 - 128) * 64 + (c3 - 128)) :: t)
            else none
        | _ => none
      else none

/-- Strict UTF-8 decoding of a byte list (see `utf8_go`). -/
def utf8_decode (l : List Nat) : Option (List Nat) :=
  utf8_go l.length l

/-- Modelled from the spec: the ISO-8859 family is decoded byte-for-byte
through a fixed code-point table; the family is represented uniformly here by
the ISO-8859-1 mapping, under which the code point equals the byte value. -/
def iso_decode (l : List Nat) : List Nat :=
  l

/-- Splits a byte list into its CRLF-separated lines (fuel-driven helper). -/
def lineSplit : Nat → List Nat → List (List Nat)
  | _, [] => [[]]
  | 0, l => [l]
  | fuel + 1, 13 :: 10 :: rest => [] :: lineSplit fuel rest
  | fuel + 1, b :: rest =>
      match lineSplit fuel rest with
      | line :: more => (b :: line) :: more
      | [] => [[b]]

/-- Splits a byte list into CRLF-separated lines. -/
def splitLines (l : List Nat) : List (List Nat) :=
  lineSplit l.length l

/-- A boundary delimiter line `--boundary` (RFC 2046). -/
def delimLine (bnd : String) (line : List Nat) : Bool :=
  line == strBytes "--" ++ strBytes bnd

/-- The terminating boundary line `--boundary--` (RFC 2046). -/
def closeLine (bnd : String) (line : List Nat) : Bool :=
  line == strBytes "--" ++ strBytes bnd ++ strBytes "--"

/-- Rejoins section lines with CRLF. -/
def joinLines (lines : List (List Nat)) : List Nat :=
  List.intercalate [13, 10] lines

/-- Modelled from the spec: drops the preamble — every line before the first
`--boundary` delimiter line; if no delimiter line exists at all the multipart
structure is malformed. -/
def dropPreamble (bnd : String) : List (List Nat) → Option (List (List Nat))
  | [] => none
  | line :: rest =>
      if delimLine bnd line then some rest else dropPreamble bnd rest

/-- Modelled from the spec: gathers the boundary-delimited sections — lines
accumulate into the current section until the next `--boundary` line starts a
new one or the final `--boundary--` line closes the body; a body that never
reaches the terminating line is malformed. -/
def gatherSections (bnd : String) (cur : List (List Nat)) :
    List (List Nat) → Option (List (List Nat))
  | [] => none
  | line :: rest =>
      if closeLine bnd line then some [joinLines cur.reverse]
      else if delimLine bnd line then
        (gatherSections bnd [] rest).map (fun more => joinLines cur.reverse :: more)
      else gatherSections bnd (line :: cur) rest

/-- Modelled from the spec: splits a raw multipart body on its boundary
delimiter lines per RFC 2046, returning the raw bytes of each section, or
`none` when the body has no well-formed boundary-delimited sections. -/
def split_parts (bnd : String) (body : List Nat) : Option (List (List Nat)) :=
  (dropPreamble bnd (splitLines body)).bind (gatherSections bnd [])

/-- Modelled from the spec: each delimited section is itself parsed into a
child `RawEntity` by the header/structure grammar, which is out of scope; a
section is represented here as a child carrying the section bytes with
default metadata. -/
def sectionEntity (bytes : List Nat) : RawEntity :=
  { mime_type := .Other "section"
    subtype := ""
    description := none
    id := none
    parameters := []
    value := bytes
    additional_headers := [] }

/-- Modelled from the spec: the entity resolution engine
(`crate::parsing::mime::entity::entity`, not among the given sources) —
`Multipart` locates the `boundary` parameter (its absence, or an ill-formed
boundary structure, is a hard error) and splits the body into child
entities; `Text` with a supported charset is decoded (strictly — invalid
text is a hard error); every other case falls back to `Entity::Unknown`
wrapping the original `RawEntity` untouched. -/
def entity (e : RawEntity) : Except Error Entity :=
  match e.mime_type with
  | .Multipart =>
      match lookup_param e.parameters "boundary" with
      | none => .error (.Known "Multipart entity has no boundary parameter")
      | some bnd =>
          match split_parts bnd e.value with
          | none => .error (.Known "Invalid multipart boundary structure")
          | some parts => .ok (.Multipart e.subtype (parts.map sectionEntity))
  | .Text =>
      let cs := (lookup_param e.parameters "charset").getD "us-ascii"
      if cs = "utf-8" ∨ cs = "us-ascii" then
        match utf8_decode e.value with
        | some cps => .ok (.Text e.subtype cps)
        | none => .error (.Known "Invalid text encoding")
      else if String.isPrefixOf "iso-8859" cs then
        .ok (.Text e.subtype (iso_decode e.value))
      else .ok (.Unknown e)
  | _ => .ok (.Unknown e)

/-- src/mime.rs lines 23–30: `RawEntity::parse` — delegates to the entity
resolution engine. -/
def RawEntity.parse (e : RawEntity) : Except Error Entity :=
  entity e

/-- The all-digit run `0…01990` with `n - 4` leading zeros. -/
def zeroPadded1990 (n : Nat) : List Nat :=
  List.replicate (n - 4) 48 ++ [49, 57, 57, 48]

/-- A sample entity with an unrecognized mime type. -/
def sample_entity : RawEntity :=
  { mime_type := .Other "x-custom"
    subtype := "custom"
    description := some "a custom part"
    id := some ("left", "right")
    parameters := [("charset", "utf-8")]
    value := strBytes "payload"
    additional_headers := [("x-hdr", "v")] }

/-- The input `(((…)))` with `n` opening and `n` closing parentheses — a
single comment whose nesting depth is `n`. -/
def nestedParens (n : Nat) : List Nat :=
  List.replicate n 40 ++ List.replicate n 41

/-! ## Basic lemmas about the combinator substrate -/

theorem andThen_ok_iff {α β : Type} {x : Res α} {g : List Nat → α → Res β}
    {r : List Nat} {w : β} :
    andThen x g = .ok (r, w) ↔ ∃ i v, x = .ok (i, v) ∧ g i v = .ok (r, w) := by
  cases x with
  | error e => simp [andThen]
  | ok p =>
      obtain ⟨i, v⟩ := p
      simp only [andThen]
      constructor
      · intro h
        exact ⟨i, v, rfl, h⟩
      · rintro ⟨i2, v2, he, h3⟩
        injection he with he1
        injection he1 with ha hb
        subst ha
        subst hb
        exact h3

theorem mapErr_ok_iff {α : Type} {x : Res α} {e : Error} {p : List Nat × α} :
    mapErr x e = .ok p ↔ x = .ok p := by
  cases x with
  | error e2 => simp [mapErr]
  | ok q => simp [mapErr]

theorem andThen_ok_apply {α β : Type} (i : List Nat) (v : α)
    (g : List Nat → α → Res β) : andThen (.ok (i, v)) g = g i v :=
  rfl

theorem digit_suffix (input rest : List Nat) (v : Nat)
    (h : digit input = .ok (rest, v)) : rest.IsSuffix input := by
  cases input with
  | nil => simp [digit] at h
  | cons b l =>
      by_cases hb : is_digit b
      · simp [digit, hb] at h
        obtain ⟨h1, _⟩ := h
        subst h1
        exact List.suffix_cons b l
      · simp [digit, hb] at h

theorem tag_suffix (input t rest : List Nat) (u : Unit)
    (h : tag input t = .ok (rest, u)) : rest.IsSuffix input := by
  unfold tag at h
  split at h
  · simp at h
    subst h
    exact List.drop_suffix _ _
  · simp at h

theorem take_while1_suffix (input rest m : List Nat) (p : Nat → Bool)
    (h : take_while1 input p = .ok (rest, m)) : rest.IsSuffix input := by
  unfold take_while1 at h
  split at h
  · simp at h
  · simp at h
    obtain ⟨h1, _⟩ := h
    subst h1
    exact List.dropWhile_suffix p

theorem fws_suffix (input rest : List Nat) (u : Unit)
    (h : fws input = .ok (rest, u)) : rest.IsSuffix input := by
  unfold fws at h
  split at h
  · rename_i r heq
    split at h
    · simp at h
      have h1 : (13 :: 10 :: r).IsSuffix input := by
        rw [← heq]
        exact List.dropWhile_suffix wsp
      have h2 : r.IsSuffix input :=
        ((List.suffix_cons 10 r).trans (List.suffix_cons 13 (10 :: r))).trans h1
      subst h
      exact (List.dropWhile_suffix wsp).trans h2
    · simp at h
  · split at h
    · simp at h
      subst h
      exact List.dropWhile_suffix wsp
    · simp at h

theorem optional_fst_suffix {α : Type} (input : List Nat) (p : List Nat → Res α)
    (hp : ∀ i r v, p i = .ok (r, v) → r.IsSuffix i) :
    (optional input p).1.IsSuffix input := by
  cases hq : p input with
  | error e => simp [optional, hq]
  | ok q =>
      obtain ⟨r, v⟩ := q
      simp only [optional, hq]
      exact hp input r v hq

theorem two_digits_suffix (input rest : List Nat) (v : Nat)
    (h : two_digits input = .ok (rest, v)) : rest.IsSuffix input := by
  simp only [two_digits, andThen_ok_iff] at h
  obtain ⟨i1, d1, h1, i2, d2, h2, h3⟩ := h
  simp at h3
  obtain ⟨h4, _⟩ := h3
  subst h4
  exact (digit_suffix _ _ _ h2).trans (digit_suffix _ _ _ h1)

theorem scanComment_suffix (fuel : Nat) :
    ∀ (d : Nat) (l r : List Nat), scanComment fuel d l = some r → r.IsSuffix l := by
  induction fuel with
  | zero =>
      intro d l r h
      cases l with
      | nil => simp [scanComment] at h
      | cons b t => simp [scanComment] at h
  | succ f ih =>
      intro d l r h
      cases l with
      | nil => simp [scanComment] at h
      | cons b t =>
          simp only [scanComment] at h
          split at h
          · split at h
            · simp at h
              subst h
              exact List.suffix_cons b t
            · exact (ih _ _ _ h).trans (List.suffix_cons b t)
          · split at h
            · exact (ih _ _ _ h).trans (List.suffix_cons b t)
            · exact (ih _ _ _ h).trans (List.suffix_cons b t)

theorem tail_suffix (l : List Nat) : l.tail.IsSuffix l := by
  cases l with
  | nil => exact List.suffix_rfl
  | cons b t => exact List.suffix_cons b t

theorem cfwsUnits_suffix (fuel : Nat) :
    ∀ l : List Nat, (cfwsUnits fuel l).IsSuffix l := by
  induction fuel with
  | zero =>
      intro l
      simp [cfwsUnits]
  | succ f ih =>
      intro l
      cases l with
      | nil => simp [cfwsUnits]
      | cons b rest =>
          simp only [cfwsUnits]
          split_ifs with h1 h2 h3 h4
          · exact (ih _).trans (List.suffix_cons b _)
          · exact (ih _).trans ((tail_suffix rest).trans (List.suffix_cons b _))
          · exact List.suffix_rfl
          · split
            · rename_i rest2 heq
              exact (ih _).trans
                ((scanComment_suffix _ _ _ _ heq).trans (List.suffix_cons b _))
            · exact List.suffix_rfl
          · exact List.suffix_rfl

theorem cfws_suffix (input rest : List Nat) (u : Unit)
    (h : cfws input = .ok (rest, u)) : rest.IsSuffix input := by
  simp only [cfws] at h
  split at h
  · simp at h
    subst h
    exact cfwsUnits_suffix _ _
  · simp at h

/-! ## Remaining-input lemmas for the grammar rules -/

theorem day_name_drop (input rest : List Nat) (v : Day)
    (h : day_name input = .ok (rest, v)) : rest = input.drop 3 := by
  unfold day_name at h
  split at h
  · split at h
    · injection h with h1
      injection h1 with ha hb
      exact ha.symm
    · exact Except.noConfusion h
  · exact Except.noConfusion h

theorem month_drop (input rest : List Nat) (v : Month)
    (h : month input = .ok (rest, v)) : rest = input.drop 3 := by
  unfold month at h
  split at h
  · split at h
    · injection h with h1
      injection h1 with ha hb
      exact ha.symm
    · exact Except.noConfusion h
  · exact Except.noConfusion h

theorem day_name_suffix (input rest : List Nat) (v : Day)
    (h : day_name input = .ok (rest, v)) : rest.IsSuffix input := by
  rw [day_name_drop input rest v h]
  exact List.drop_suffix 3 input

theorem month_suffix (input rest : List Nat) (v : Month)
    (h : month input = .ok (rest, v)) : rest.IsSuffix input := by
  rw [month_drop input rest v h]
  exact List.drop_suffix 3 input

theorem day_of_week_suffix (input rest : List Nat) (v : Day)
    (h : day_of_week input = .ok (rest, v)) : rest.IsSuffix input := by
  simp only [day_of_week, andThen_ok_iff] at h
  obtain ⟨i2, dy, h1, i3, u, h2, h3⟩ := h
  simp at h3
  obtain ⟨h4, _⟩ := h3
  subst h4
  exact ((tag_suffix _ _ _ _ h2).trans (day_name_suffix _ _ _ h1)).trans
    (optional_fst_suffix input fws fws_suffix)

theorem year_suffix (input rest : List Nat) (v : Nat)
    (h : year input = .ok (rest, v)) : rest.IsSuffix input := by
  simp only [year, andThen_ok_iff, mapErr_ok_iff] at h
  obtain ⟨i1, u1, h1, i2, run, h2, h3⟩ := h
  split at h3
  · simp at h3
  · split at h3
    · simp at h3
    · split at h3
      · simp at h3
      · simp only [andThen_ok_iff] at h3
        obtain ⟨i3, u3, h4, h5⟩ := h3
        simp at h5
        obtain ⟨h6, _⟩ := h5
        subst h6
        exact ((fws_suffix _ _ _ h4).trans (take_while1_suffix _ _ _ _ h2)).trans
          (fws_suffix _ _ _ h1)

theorem day_suffix (input rest : List Nat) (v : Nat)
    (h : day input = .ok (rest, v)) : rest.IsSuffix input := by
  simp only [day, andThen_ok_iff] at h
  obtain ⟨i2, d1, h1, h2⟩ := h
  have hopt : (optional input fws).1.IsSuffix input :=
    optional_fst_suffix input fws fws_suffix
  split at h2
  · simp at h2
  · simp only [andThen_ok_iff] at h2
    obtain ⟨i4, u4, h3, h4⟩ := h2
    simp at h4
    obtain ⟨h5, _⟩ := h4
    subst h5
    have hstep :
        (match digit i2 with
         | .ok (i3, d2) => (i3, d1 * 10 + d2)
         | .error _ => (i2, d1)).1.IsSuffix i2 := by
      split
      · rename_i i3 d2 heq
        exact digit_suffix _ _ _ heq
      · exact List.suffix_rfl
    exact ((fws_suffix _ _ _ h3).trans hstep).trans
      ((digit_suffix _ _ _ h1).trans hopt)

theorem time_of_day_suffix (input rest : List Nat) (v : Nat × Nat × Nat)
    (h : time_of_day input = .ok (rest, v)) : rest.IsSuffix input := by
  simp only [time_of_day, andThen_ok_iff] at h
  obtain ⟨i1, hour, h1, h2⟩ := h
  split at h2
  · simp at h2
  · simp only [andThen_ok_iff] at h2
    obtain ⟨i2, u2, h3, i3, minutes, h4, h5⟩ := h2
    have hi3 : i3.IsSuffix input :=
      ((two_digits_suffix _ _ _ h4).trans (tag_suffix _ _ _ _ h3)).trans
        (two_digits_suffix _ _ _ h1)
    have htail : i3.tail.IsSuffix i3 := by
      cases i3 with
      | nil => exact List.suffix_rfl
      | cons b t => exact List.suffix_cons b t
    split at h5
    · simp at h5
    · split at h5
      · split at h5
        · rename_i i4 seconds heq
          split at h5
          · simp at h5
          · simp at h5
            obtain ⟨h6, _⟩ := h5
            subst h6
            exact ((two_digits_suffix _ _ _ heq).trans htail).trans hi3
        · simp at h5
          obtain ⟨h6, _⟩ := h5
          subst h6
          exact hi3
      · simp at h5
        obtain ⟨h6, _⟩ := h5
        subst h6
        exact hi3

theorem zone_suffix (input rest : List Nat) (v : Zone)
    (h : zone input = .ok (rest, v)) : rest.IsSuffix input := by
  simp only [zone, andThen_ok_iff] at h
  obtain ⟨i1, u1, h1, h2⟩ := h
  split at h2
  · simp at h2
  · rename_i c i2
    split at h2
    · simp only [andThen_ok_iff] at h2
      obtain ⟨i3, hours, h3, i4, minutes, h4, h5⟩ := h2
      split at h5
      · simp at h5
      · simp at h5
        obtain ⟨h6, _⟩ := h5
        subst h6
        exact (((two_digits_suffix _ _ _ h4).trans
          (two_digits_suffix _ _ _ h3)).trans
          (List.suffix_cons c i2)).trans (fws_suffix _ _ _ h1)
    · simp at h2

theorem time_suffix (input rest : List Nat) (v : Time)
    (h : time input = .ok (rest, v)) : rest.IsSuffix input := by
  simp only [time, andThen_ok_iff] at h
  obtain ⟨i1, tod, h1, i2, z, h2, h3⟩ := h
  simp at h3
  obtain ⟨h4, _⟩ := h3
  subst h4
  exact (zone_suffix _ _ _ h2).trans (time_of_day_suffix _ _ _ h1)

theorem date_suffix (input rest : List Nat) (v : Date)
    (h : date input = .ok (rest, v)) : rest.IsSuffix input := by
  simp only [date, andThen_ok_iff] at h
  obtain ⟨i1, d, h1, i2, m, h2, i3, y, h3, h4⟩ := h
  simp at h4
  obtain ⟨h5, _⟩ := h4
  subst h5
  exact ((year_suffix _ _ _ h3).trans (month_suffix _ _ _ h2)).trans
    (day_suffix _ _ _ h1)

theorem date_time_suffix (input rest : List Nat) (v : DateTime)
    (h : date_time input = .ok (rest, v)) : rest.IsSuffix input := by
  simp only [date_time, andThen_ok_iff] at h
  obtain ⟨i2, dt, h1, i3, t, h2, h3⟩ := h
  simp at h3
  obtain ⟨h4, _⟩ := h3
  subst h4
  exact ((optional_fst_suffix i3 cfws cfws_suffix).trans
    ((time_suffix _ _ _ h2).trans (date_suffix _ _ _ h1))).trans
    (optional_fst_suffix input day_of_week day_of_week_suffix)

/-! ## Totality helpers -/

theorem res_cases {α : Type} (x : Res α) :
    (∃ r v, x = .ok (r, v)) ∨ (∃ e, x = .error e) := by
  cases x with
  | ok p => exact .inl ⟨p.1, p.2, by simp⟩
  | error e => exact .inr ⟨e, rfl⟩

theorem exc_cases {β : Type} (x : Except Error β) :
    (∃ v, x = .ok v) ∨ (∃ e, x = .error e) := by
  cases x with
  | ok v => exact .inl ⟨v, rfl⟩
  | error e => exact .inr ⟨e, rfl⟩

/-! ## Claim theorems -/

/-- C1: every grammar rule of the date-time module (`day_name`, `month`,
`day_of_week`, `year`, `day`, `time_of_day`, `zone`, `time`, `date`,
`date_time`) and the public entry `RawEntity.parse` is total — on every
input byte slice it returns a `Result` value, either `ok` or a returned
`Error`; in particular (sample conjuncts) empty and garbage inputs
terminate in concrete `Error` values. -/
theorem all_rules_total :
    (∀ input : List Nat,
      ((∃ r v, day_name input = .ok (r, v)) ∨ (∃ e, day_name input = .error e)) ∧
      ((∃ r v, month input = .ok (r, v)) ∨ (∃ e, month input = .error e)) ∧
      ((∃ r v, day_of_week input = .ok (r, v)) ∨ (∃ e, day_of_week input = .error e)) ∧
      ((∃ r v, year input = .ok (r, v)) ∨ (∃ e, year input = .error e)) ∧
      ((∃ r v, day input = .ok (r, v)) ∨ (∃ e, day input = .error e)) ∧
      ((∃ r v, time_of_day input = .ok (r, v)) ∨ (∃ e, time_of_day input = .error e)) ∧
      ((∃ r v, zone input = .ok (r, v)) ∨ (∃ e, zone input = .error e)) ∧
      ((∃ r v, time input = .ok (r, v)) ∨ (∃ e, time input = .error e)) ∧
      ((∃ r v, date input = .ok (r, v)) ∨ (∃ e, date input = .error e)) ∧
      ((∃ r v, date_time input = .ok (r, v)) ∨ (∃ e, date_time input = .error e))) ∧
    (∀ e : RawEntity,
      (∃ v, RawEntity.parse e = .ok v) ∨ (∃ er, RawEntity.parse e = .error er)) ∧
    date_time [] = .error (.Known "Expected digit but reached end of input") ∧
    date_time (strBytes "garbage input") = .error (.Known "Expected digit") := by
  refine ⟨fun input => ⟨?_, ?_, ?_, ?_, ?_, ?_, ?_, ?_, ?_, ?_⟩,
    fun e => exc_cases _, rfl, rfl⟩ <;> exact res_cases _

/-- C4: `date_time` on the two documented example inputs returns exactly the
documented values, consuming the whole input. -/
theorem date_time_examples :
    date_time (strBytes "Mon, 12 Apr 2023 10:25:03 +0000") =
      .ok ([], (some .Monday, (12, .April, 2023), ((10, 25, 3), (true, 0, 0)))) ∧
    date_time (strBytes "5 May 2003 18:59:03 +0000") =
      .ok ([], (none, (5, .May, 2003), ((18, 59, 3), (true, 0, 0)))) :=
  ⟨rfl, rfl⟩

/-- C10: whenever a grammar rule of the date-time module succeeds, the
returned remaining-bytes slice is a suffix of the input slice. -/
theorem remaining_is_suffix :
    (∀ i r v, day_name i = .ok (r, v) → r.IsSuffix i) ∧
    (∀ i r v, month i = .ok (r, v) → r.IsSuffix i) ∧
    (∀ i r v, day_of_week i = .ok (r, v) → r.IsSuffix i) ∧
    (∀ i r v, year i = .ok (r, v) → r.IsSuffix i) ∧
    (∀ i r v, day i = .ok (r, v) → r.IsSuffix i) ∧
    (∀ i r v, time_of_day i = .ok (r, v) → r.IsSuffix i) ∧
    (∀ i r v, zone i = .ok (r, v) → r.IsSuffix i) ∧
    (∀ i r v, time i = .ok (r, v) → r.IsSuffix i) ∧
    (∀ i r v, date i = .ok (r, v) → r.IsSuffix i) ∧
    (∀ i r v, date_time i = .ok (r, v) → r.IsSuffix i) :=
  ⟨day_name_suffix, month_suffix, day_of_week_suffix, year_suffix, day_suffix,
   time_of_day_suffix, zone_suffix, time_suffix, date_suffix, date_time_suffix⟩

/-- Witness for C10: at the concrete input `"10:40:xx rest"` the rule
`time_of_day` succeeds and its remainder `":xx rest"` is a suffix of the
input. -/
theorem remaining_is_suffix_witness :
    List.IsSuffix (strBytes ":xx rest") (strBytes "10:40:xx rest") :=
  remaining_is_suffix.2.2.2.2.2.1 (strBytes "10:40:xx rest")
    (strBytes ":xx rest") (10, 40, 0) rfl

theorem day_ok_le_31 (input rest : List Nat) (v : Nat)
    (h : day input = .ok (rest, v)) : v ≤ 31 := by
  simp only [day, andThen_ok_iff] at h
  obtain ⟨i2, d1, h1, h2⟩ := h
  split at h2
  · simp at h2
  · rename_i hle
    simp only [andThen_ok_iff] at h2
    obtain ⟨i4, u4, h3, h4⟩ := h2
    simp at h4
    obtain ⟨_, h5⟩ := h4
    omega

/-- Counterexample to C9: `day` accepts the input `"0 "` and returns the
day-of-month value 0, which is outside the claimed range 1–31 — so not
every successful `day` value lies in 1..31. -/
theorem day_not_always_ge_1 :
    ¬ (∀ input rest v, day input = .ok (rest, v) → 1 ≤ v ∧ v ≤ 31) := by
  intro h
  have h0 : (1 ≤ 0 ∧ 0 ≤ 31) := h (strBytes "0 ") [] 0 rfl
  omega

/-- C9 (amended): every day-of-month value returned by a successful call to
`day` — and hence the first component of every `Date` returned by `date` —
is at most 31; the code checks only the upper bound, so 0 is also
accepted. -/
theorem day_at_most_31 :
    (∀ input rest v, day input = .ok (rest, v) → v ≤ 31) ∧
    (∀ input rest d m y, date input = .ok (rest, (d, m, y)) → d ≤ 31) := by
  refine ⟨day_ok_le_31, fun input rest d m y h => ?_⟩
  simp only [date, andThen_ok_iff] at h
  obtain ⟨i1, d0, h1, i2, m0, h2, i3, y0, h3, h4⟩ := h
  simp at h4
  obtain ⟨_, h5, _, _⟩ := h4
  subst h5
  exact day_ok_le_31 _ _ _ h1

/-- Witness for C9 (amended): at the concrete input `"31 "`, `day` succeeds
with value 31, which the theorem bounds by 31. -/
theorem day_at_most_31_witness :
    day (strBytes "31 ") = .ok ([], 31) ∧ 31 ≤ 31 :=
  ⟨rfl, day_at_most_31.1 (strBytes "31 ") [] 31 rfl⟩

/-! ## Year analysis (C5) -/

theorem takeWhile_append_all (p : Nat → Bool) (l r : List Nat)
    (h : ∀ x ∈ l, p x = true) :
    (l ++ r).takeWhile p = l ++ r.takeWhile p := by
  induction l with
  | nil => simp
  | cons b t ih =>
      simp only [List.cons_append, List.takeWhile_cons]
      rw [h b (by simp)]
      simp only [ih (fun x hx => h x (by simp [hx]))]
      simp

theorem dropWhile_append_all (p : Nat → Bool) (l r : List Nat)
    (h : ∀ x ∈ l, p x = true) :
    (l ++ r).dropWhile p = r.dropWhile p := by
  induction l with
  | nil => simp
  | cons b t ih =>
      simp only [List.cons_append, List.dropWhile_cons]
      rw [h b (by simp)]
      simp only [ih (fun x hx => h x (by simp [hx]))]
      simp

theorem fws_space_digit (l : List Nat)
    (hb : ∃ b r2, l = b :: r2 ∧ is_digit b = true) :
    fws (32 :: l) = .ok (l, ()) := by
  obtain ⟨b, r2, rfl, hdig⟩ := hb
  have hw : wsp b = false := by
    simp [wsp, is_digit] at hdig ⊢
    omega
  have h13 : b ≠ 13 := by
    simp [is_digit] at hdig
    omega
  have h32 : wsp 32 = true := rfl
  have hd : (32 :: b :: r2).dropWhile wsp = b :: r2 := by
    simp [List.dropWhile_cons, h32, hw]
  unfold fws
  rw [hd]
  split
  · rename_i rest heq
    injection heq with h1 h2
    exact absurd h1 h13
  · simp [wsp]

theorem take_while1_spec (input m r : List Nat) (p : Nat → Bool)
    (hm : input.takeWhile p = m) (hne : m ≠ []) (hr : input.dropWhile p = r) :
    take_while1 input p = .ok (r, m) := by
  cases m with
  | nil => exact absurd rfl hne
  | cons b t =>
      unfold take_while1
      rw [hm]
      rw [hr]

theorem parse_usize_of_ne_nil (s : List Nat) (h : s ≠ []) :
    parse_usize s =
      if s.foldl (fun a b => a * 10 + (b - 48)) 0 < 2 ^ 64 then
        some (s.foldl (fun a b => a * 10 + (b - 48)) 0)
      else none := by
  cases s with
  | nil => exact absurd rfl h
  | cons b t => rfl

theorem foldl_zeros (k : Nat) :
    (List.replicate k 48).foldl (fun a b => a * 10 + (b - 48)) 0 = 0 := by
  induction k with
  | zero => rfl
  | succ k ih =>
      simp only [List.replicate_succ, List.foldl_cons]
      simpa using ih

theorem year_ok_ge_1990 (input rest : List Nat) (v : Nat)
    (h : year input = .ok (rest, v)) : 1990 ≤ v := by
  simp only [year, andThen_ok_iff, mapErr_ok_iff] at h
  obtain ⟨i1, u1, h1, i2, run, h2, h3⟩ := h
  split at h3
  · simp at h3
  · split at h3
    · simp at h3
    · rename_i y hp
      split at h3
      · simp at h3
      · rename_i hge
        simp only [andThen_ok_iff] at h3
        obtain ⟨i3, u3, h4, h5⟩ := h3
        simp at h5
        omega

theorem zeroPadded1990_head (n : Nat) :
    ∃ b r2, zeroPadded1990 n ++ [32] = b :: r2 ∧ is_digit b = true := by
  unfold zeroPadded1990
  cases hk : n - 4 with
  | zero => exact ⟨49, [57, 57, 48, 32], by simp, rfl⟩
  | succ k =>
      exact ⟨48, List.replicate k 48 ++ [49, 57, 57, 48] ++ [32],
        by simp [List.replicate_succ], rfl⟩

theorem zeroPadded1990_all_digits (n : Nat) :
    ∀ x ∈ zeroPadded1990 n, is_digit x = true := by
  intro x hx
  unfold zeroPadded1990 at hx
  rw [List.mem_append] at hx
  rcases hx with hx | hx
  · rw [List.eq_of_mem_replicate hx]
    rfl
  · simp at hx
    rcases hx with rfl | rfl | rfl | rfl <;> rfl

theorem zeroPadded1990_length (n : Nat) (hn : 4 ≤ n) :
    (zeroPadded1990 n).length = n := by
  simp [zeroPadded1990]
  omega

theorem zeroPadded1990_value (n : Nat) :
    (zeroPadded1990 n).foldl (fun a b => a * 10 + (b - 48)) 0 = 1990 := by
  unfold zeroPadded1990
  rw [List.foldl_append, foldl_zeros]
  rfl

theorem year_accepts_zeroPadded (n : Nat) (hn : 4 ≤ n) :
    year (32 :: (zeroPadded1990 n ++ [32])) = .ok ([], 1990) := by
  have hne : zeroPadded1990 n ≠ [] := by
    intro hcon
    have := zeroPadded1990_length n hn
    rw [hcon] at this
    simp at this
    omega
  have htake : (zeroPadded1990 n ++ [32]).takeWhile is_digit = zeroPadded1990 n := by
    have h1 : [32].takeWhile is_digit = [] := by decide
    rw [takeWhile_append_all is_digit _ _ (zeroPadded1990_all_digits n), h1,
      List.append_nil]
  have hdrop : (zeroPadded1990 n ++ [32]).dropWhile is_digit = [32] := by
    rw [dropWhile_append_all is_digit _ _ (zeroPadded1990_all_digits n)]
    decide
  unfold year
  rw [fws_space_digit _ (zeroPadded1990_head n)]
  simp only [andThen]
  rw [take_while1_spec _ _ _ _ htake hne hdrop]
  simp only [mapErr, andThen]
  rw [if_neg (by rw [zeroPadded1990_length n hn]; omega)]
  rw [parse_usize_of_ne_nil _ hne, zeroPadded1990_value n]
  norm_num
  rfl

/-- C5: `year` succeeds only with values ≥ 1990 (first conjunct); any input
whose digit run after the mandatory folding whitespace has fewer than 4
digits is rejected (second conjunct); a digit run parsing to a value below
1990 is rejected (third conjunct); and there is no upper bound on the digit
count — for every n ≥ 4 some input whose digit run has exactly n digits (and
denotes a value ≥ 1990) is accepted. -/
theorem year_bounds :
    (∀ input rest v, year input = .ok (rest, v) → 1990 ≤ v) ∧
    (∀ input i1 u, fws input = .ok (i1, u) →
      (i1.takeWhile is_digit).length < 4 → ∃ e, year input = .error e) ∧
    (∀ input i1 u i2 run y, fws input = .ok (i1, u) →
      take_while1 i1 is_digit = .ok (i2, run) → ¬ run.length < 4 →
      parse_usize run = some y → y < 1990 →
      year input = .error (.Known "year must be after 1990")) ∧
    (∀ n, 4 ≤ n → ∃ input i1 rem, fws input = .ok (i1, ()) ∧
      (i1.takeWhile is_digit).length = n ∧ year input = .ok (rem, 1990)) := by
  refine ⟨year_ok_ge_1990, ?_, ?_, ?_⟩
  · intro input i1 u h1 hlen
    unfold year
    rw [h1]
    simp only [andThen]
    cases hm : i1.takeWhile is_digit with
    | nil =>
        refine ⟨.Known "no digit in year", ?_⟩
        simp [take_while1, hm, mapErr, andThen]
    | cons b t =>
        rw [hm] at hlen
        refine ⟨.Known "year is expected to have 4 digits or more", ?_⟩
        simp [take_while1, hm, mapErr, andThen, hlen]
        intro hcon
        exfalso
        simp at hlen
        omega
  · intro input i1 u i2 run y h1 h2 h3 h4 h5
    unfold year
    rw [h1]
    simp only [andThen]
    rw [h2]
    simp only [mapErr, andThen]
    rw [if_neg h3, h4]
    dsimp only
    rw [if_pos h5]
  · intro n hn
    refine ⟨32 :: (zeroPadded1990 n ++ [32]), zeroPadded1990 n ++ [32], [],
      fws_space_digit _ (zeroPadded1990_head n), ?_, year_accepts_zeroPadded n hn⟩
    have h32 : [32].takeWhile is_digit = [] := by decide
    rw [takeWhile_append_all is_digit _ _ (zeroPadded1990_all_digits n), h32,
      List.append_nil]
    exact zeroPadded1990_length n hn

/-- Witness for C5: concrete instances — `" 2023 "` is accepted with value
2023 ≥ 1990; `" 123 "` (3-digit run) is rejected; `" 0123 "` (4-digit run
denoting 123 < 1990) is rejected; and a 7-digit run is accepted. -/
theorem year_bounds_witness :
    (1990 ≤ 2023) ∧
    (∃ e, year (strBytes " 123 ") = .error e) ∧
    year (strBytes " 0123 ") = .error (.Known "year must be after 1990") ∧
    (∃ input i1 rem, fws input = .ok (i1, ()) ∧
      (i1.takeWhile is_digit).length = 7 ∧ year input = .ok (rem, 1990)) :=
  ⟨year_bounds.1 (strBytes " 2023 ") [] 2023 rfl,
   year_bounds.2.1 (strBytes " 123 ") (strBytes "123 ") () rfl (by decide),
   year_bounds.2.2.1 (strBytes " 0123 ") (strBytes "0123 ") ()
     (strBytes " ") [48, 49, 50, 51] 123 rfl rfl (by decide) rfl (by decide),
   year_bounds.2.2.2 7 (by decide)⟩

/-! ## time_of_day and zone analysis (C6, C7, C8) -/

theorem time_of_day_ok_ranges (input rest : List Nat) (h m s : Nat)
    (hk : time_of_day input = .ok (rest, (h, m, s))) :
    h ≤ 23 ∧ m ≤ 59 ∧ s ≤ 60 := by
  simp only [time_of_day, andThen_ok_iff] at hk
  obtain ⟨i1, hour, h1, h2⟩ := hk
  split at h2
  · simp at h2
  · rename_i h23
    simp only [andThen_ok_iff] at h2
    obtain ⟨i2, u2, h3, i3, minutes, h4, h5⟩ := h2
    split at h5
    · simp at h5
    · rename_i h59
      split at h5
      · split at h5
        · rename_i i4 seconds heq
          split at h5
          · simp at h5
          · rename_i h60
            simp at h5
            obtain ⟨_, ha, hb, hc⟩ := h5
            omega
        · simp at h5
          obtain ⟨_, ha, hb, hc⟩ := h5
          omega
      · simp at h5
        obtain ⟨_, ha, hb, hc⟩ := h5
        omega

/-- C6: `time_of_day` only succeeds with hour ≤ 23, minute ≤ 59 and
second ≤ 60 (so any hour > 23, minute > 59 or present seconds group > 60 is
an error); the leap second 60 is accepted; a well-formed seconds group above
60 is rejected with the documented error; and when no colon-seconds group
follows the minutes the rule succeeds with second = 0. -/
theorem time_of_day_ranges :
    (∀ input rest h m s, time_of_day input = .ok (rest, (h, m, s)) →
      h ≤ 23 ∧ m ≤ 59 ∧ s ≤ 60) ∧
    time_of_day (strBytes "23:59:60") = .ok ([], (23, 59, 60)) ∧
    (∀ input i1 h i2 u i3 m i4 s, two_digits input = .ok (i1, h) → ¬ h > 23 →
      tag i1 (strBytes ":") = .ok (i2, u) → two_digits i2 = .ok (i3, m) →
      ¬ m > 59 → i3.head? = some 58 → two_digits i3.tail = .ok (i4, s) →
      s > 60 →
      time_of_day input = .error (.Known "There is only 60 seconds in a minute")) ∧
    (∀ input i1 h i2 u i3 m, two_digits input = .ok (i1, h) → ¬ h > 23 →
      tag i1 (strBytes ":") = .ok (i2, u) → two_digits i2 = .ok (i3, m) →
      ¬ m > 59 → i3.head? ≠ some 58 →
      time_of_day input = .ok (i3, (h, m, 0))) := by
  refine ⟨time_of_day_ok_ranges, rfl, ?_, ?_⟩
  · intro input i1 h i2 u i3 m i4 s h1 h23 h2 h3 h59 hi3 h4 h60
    unfold time_of_day
    rw [h1]
    simp only [andThen]
    rw [if_neg h23, h2]
    simp only [andThen]
    rw [h3]
    simp only [andThen]
    rw [if_neg h59, if_pos hi3, h4]
    dsimp only
    rw [if_pos h60]
  · intro input i1 h i2 u i3 m h1 h23 h2 h3 h59 hi3
    unfold time_of_day
    rw [h1]
    simp only [andThen]
    rw [if_neg h23, h2]
    simp only [andThen]
    rw [h3]
    simp only [andThen]
    rw [if_neg h59, if_neg hi3]

/-- Witness for C6: concrete instances — ranges at `"10:40:29"`; the
out-of-range seconds group `"23:59:99"` is rejected; `"10:40 rest"` (no
colon-seconds group) succeeds with second 0. -/
theorem time_of_day_ranges_witness :
    (10 ≤ 23 ∧ 40 ≤ 59 ∧ 29 ≤ 60) ∧
    time_of_day (strBytes "23:59:99") =
      .error (.Known "There is only 60 seconds in a minute") ∧
    time_of_day (strBytes "10:40 rest") = .ok (strBytes " rest", (10, 40, 0)) :=
  ⟨time_of_day_ranges.1 (strBytes "10:40:29") [] 10 40 29 rfl,
   time_of_day_ranges.2.2.1 (strBytes "23:59:99") (strBytes ":59:99") 23
     (strBytes "59:99") () (strBytes ":99") 59 [] 99 rfl (by decide) rfl rfl
     (by decide) rfl rfl (by decide),
   time_of_day_ranges.2.2.2 (strBytes "10:40 rest") (strBytes ":40 rest") 10
     (strBytes "40 rest") () (strBytes " rest") 40 rfl (by decide) rfl rfl
     (by decide) (by decide)⟩

/-- C7: when the minutes are followed by a colon whose following bytes do
not form a valid two-digit seconds group, `time_of_day` succeeds with
second = 0 and the remaining input still starts at that colon. -/
theorem malformed_seconds_fallback :
    ∀ input i1 h i2 u i3 m e, two_digits input = .ok (i1, h) → ¬ h > 23 →
      tag i1 (strBytes ":") = .ok (i2, u) → two_digits i2 = .ok (i3, m) →
      ¬ m > 59 → i3.head? = some 58 → two_digits i3.tail = .error e →
      time_of_day input = .ok (i3, (h, m, 0)) := by
  intro input i1 h i2 u i3 m e h1 h23 h2 h3 h59 hi3 herr
  unfold time_of_day
  rw [h1]
  simp only [andThen]
  rw [if_neg h23, h2]
  simp only [andThen]
  rw [h3]
  simp only [andThen]
  rw [if_neg h59, if_pos hi3, herr]

/-- Witness for C7: on `"10:40:xx rest"` the bytes after the colon are not
two digits, so `time_of_day` succeeds with second 0 and the remainder
`":xx rest"` starts at the colon. -/
theorem malformed_seconds_fallback_witness :
    time_of_day (strBytes "10:40:xx rest") =
      .ok (strBytes ":xx rest", (10, 40, 0)) :=
  malformed_seconds_fallback (strBytes "10:40:xx rest") (strBytes ":40:xx rest")
    10 (strBytes "40:xx rest") () (strBytes ":xx rest") 40
    (.Known "Expected digit") rfl (by decide) rfl rfl (by decide) rfl rfl

theorem zone_ok_minutes_le (input rest : List Nat) (s : Bool) (hrs m : Nat)
    (h : zone input = .ok (rest, (s, hrs, m))) : m ≤ 59 := by
  simp only [zone, andThen_ok_iff] at h
  obtain ⟨i1, u1, h1, h2⟩ := h
  split at h2
  · simp at h2
  · split at h2
    · simp only [andThen_ok_iff] at h2
      obtain ⟨i3, hrs0, h3, i4, m0, h4, h5⟩ := h2
      split at h5
      · simp at h5
      · rename_i h59
        simp at h5
        omega
    · simp at h2

/-- C8: `zone` fails whenever the first byte after the mandatory folding
whitespace is missing or is neither `+` (43) nor `-` (45); a two-digit
zone-minutes value above 59 is rejected with the documented error; every
returned `Zone` has minutes ≤ 59; and zone-hours have no upper check beyond
the two-digit form — `" +9912"` is accepted with 99 hours. -/
theorem zone_checks :
    (∀ input i1 u, fws input = .ok (i1, u) →
      (∀ c, i1.head? = some c → ¬(c = 43 ∨ c = 45)) →
      ∃ e, zone input = .error e) ∧
    (∀ input i1 u c i2 i3 hrs i4 m, fws input = .ok (i1, u) → i1 = c :: i2 →
      (c = 43 ∨ c = 45) → two_digits i2 = .ok (i3, hrs) →
      two_digits i3 = .ok (i4, m) → m > 59 →
      zone input = .error (.Known "zone minutes out of range")) ∧
    (∀ input rest s hrs m, zone input = .ok (rest, (s, hrs, m)) → m ≤ 59) ∧
    zone (strBytes " +9912") = .ok ([], (true, 99, 12)) := by
  refine ⟨?_, ?_, zone_ok_minutes_le, rfl⟩
  · intro input i1 u h1 hc
    cases i1 with
    | nil =>
        refine ⟨.Known "Expected more characters in zone", ?_⟩
        unfold zone
        simp only [h1, andThen_ok_apply]
    | cons c i2 =>
        refine ⟨.Known "Invalid sign character in zone", ?_⟩
        unfold zone
        simp only [h1, andThen_ok_apply]
        rw [if_neg (hc c rfl)]
  · intro input i1 u c i2 i3 hrs i4 m h1 hsh hsign h2 h3 h59
    subst hsh
    unfold zone
    simp only [h1, andThen_ok_apply]
    rw [if_pos hsign]
    simp only [h2, andThen_ok_apply]
    simp only [h3, andThen_ok_apply]
    rw [if_pos h59]

/-- Witness for C8: concrete instances — `" *1234"` (bad sign) and `" "`
(end of input before a sign) are rejected; `" +0099"` (minutes 99) is
rejected; the accepted `" +9912"` has minutes 12 ≤ 59. -/
theorem zone_checks_witness :
    (∃ e, zone (strBytes " *1234") = .error e) ∧
    zone (strBytes " +0099") = .error (.Known "zone minutes out of range") ∧
    12 ≤ 59 :=
  ⟨zone_checks.1 (strBytes " *1234") (strBytes "*1234") () rfl
     (by
       intro c hc
       have h42 : (some 42 : Option Nat) = some c := hc
       injection h42 with h
       subst h
       decide),
   zone_checks.2.1 (strBytes " +0099") (strBytes "+0099") () 43
     (strBytes "0099") (strBytes "99") 0 [] 99 rfl rfl (.inl rfl) rfl rfl
     (by decide),
   zone_checks.2.2.1 (strBytes " +9912") [] true 99 12 rfl⟩

/-! ## Entity resolution (C2) -/

/-- C2: a `RawEntity` whose mime type is `Other name` resolves through
`RawEntity.parse` to `Ok (Entity.Unknown e)` where `e` is the original
entity itself (hence every field unchanged); an unrecognized type alone is
never an error. -/
theorem parse_other_unknown :
    ∀ (e : RawEntity) (name : String), e.mime_type = .Other name →
      RawEntity.parse e = .ok (.Unknown e) := by
  intro e name h
  unfold RawEntity.parse entity
  rw [h]

/-- Witness for C2: the sample `Other "x-custom"` entity resolves to
`Unknown` wrapping itself. -/
theorem parse_other_unknown_witness :
    RawEntity.parse sample_entity = .ok (.Unknown sample_entity) :=
  parse_other_unknown sample_entity "x-custom" rfl

/-! ## Comment nesting depth (C3) -/

theorem cfwsUnits_nil (f : Nat) : cfwsUnits f [] = [] := by
  cases f with
  | zero => rfl
  | succ f2 => rfl

theorem scan_close (d : Nat) :
    ∀ f l, d + 1 ≤ f →
      scanComment f d (List.replicate (d + 1) 41 ++ l) = some l := by
  induction d with
  | zero =>
      intro f l hf
      cases f with
      | zero => omega
      | succ f2 => simp [scanComment]
  | succ d ih =>
      intro f l hf
      cases f with
      | zero => omega
      | succ f2 =>
          rw [List.replicate_succ, List.cons_append]
          simp only [scanComment]
          simp only [if_true]
          rw [if_neg (Nat.succ_ne_zero d)]
          simpa using ih f2 l (by omega)

theorem scan_rep (a : Nat) :
    ∀ d f l, 2 * a + d + 1 ≤ f →
      scanComment f d
        (List.replicate a 40 ++ (List.replicate (a + d + 1) 41 ++ l)) =
        some l := by
  induction a with
  | zero =>
      intro d f l hf
      simpa using scan_close d f l (by omega)
  | succ a ih =>
      intro d f l hf
      cases f with
      | zero => omega
      | succ f2 =>
          rw [List.replicate_succ, List.cons_append]
          simp only [scanComment]
          simp only [if_true]
          have h2 := ih (d + 1) f2 l (by omega)
          have heq : a + (d + 1) + 1 = a + 1 + d + 1 := by omega
          rw [heq] at h2
          simpa using h2

theorem cfwsUnits_comment (f : Nat) (rest rest2 : List Nat)
    (h : scanComment rest.length 0 rest = some rest2) :
    cfwsUnits (f + 1) (40 :: rest) = cfwsUnits f rest2 := by
  rw [cfwsUnits]
  split
  · rename_i heq
    exact absurd heq (by decide)
  · rw [if_neg (by decide : ¬ ((40 : Nat) = 13)),
      if_pos (rfl : (40 : Nat) = 40), h]

theorem cfws_nested (n : Nat) (hn : 1 ≤ n) :
    cfws (nestedParens n) = .ok ([], ()) := by
  obtain ⟨k, rfl⟩ : ∃ k, n = k + 1 := ⟨n - 1, by omega⟩
  have hshape : nestedParens (k + 1) =
      40 :: (List.replicate k 40 ++ List.replicate (k + 1) 41) := by
    simp [nestedParens, List.replicate_succ]
  have hlen : (nestedParens (k + 1)).length = 2 * k + 2 := by
    simp [nestedParens]
    omega
  have hscan : scanComment (List.replicate k 40 ++ List.replicate (k + 1) 41).length 0
      (List.replicate k 40 ++ List.replicate (k + 1) 41) = some [] := by
    have h1 := scan_rep k 0 ((List.replicate k 40 ++ List.replicate (k + 1) 41).length) []
    simp only [List.append_nil] at h1
    have h2 : 2 * k + 0 + 1 ≤ (List.replicate k 40 ++ List.replicate (k + 1) 41).length := by
      simp
      omega
    have h3 := h1 h2
    simpa using h3
  have hunits : cfwsUnits (nestedParens (k + 1)).length (nestedParens (k + 1)) = [] := by
    rw [hlen, hshape]
    have hf : 2 * k + 2 = (2 * k + 1) + 1 := rfl
    rw [hf, cfwsUnits_comment _ _ _ hscan]
    exact cfwsUnits_nil _
  have hpos : ([] : List Nat).length < (nestedParens (k + 1)).length := by
    rw [hlen]
    simp
  simp only [cfws]
  rw [hunits, if_pos hpos]

/-- C3: there is no configured maximum nesting depth — `cfws` succeeds on a
comment nested 300 levels deep (and, by `cfws_nested`, on every depth), and
the `Error` type defines only the `Known` and `TagError` kinds, so no
depth-exceeded error value exists. -/
theorem no_depth_limit :
    cfws (nestedParens 300) = .ok ([], ()) ∧
    (∀ e : Error, (∃ s, e = .Known s) ∨ (∃ s, e = .TagError s)) := by
  refine ⟨cfws_nested 300 (by omega), fun e => ?_⟩
  cases e with
  | Known s => exact .inl ⟨s, rfl⟩
  | TagError s => exact .inr ⟨s, rfl⟩

end EmailParser
